import Mathlib

/-!
Shallow embedding of the stack-based bytecode virtual machine from
`src/main.rs` (crate `recur`).

Modelling conventions:
* Rust `i32` words are modelled as unbounded `Int` carried inside `Word`;
  two's-complement wrap-around of `+`, `-`, `*` and of the instruction
  pointer increment is made explicit with `wrap32` (release-mode Rust
  semantics).  Signed division overflow (`i32::MIN / -1`) panics in Rust in
  every build mode, so `execute` returns a distinguished `panic` outcome
  there.
* The `v as usize` casts (fetch bounds check, `Dup` depth check) are
  modelled by `usizeOfI32`, i.e. reduction of the signed value modulo
  `2 ^ 64` (64-bit target).
* The fixed 1024-slot stack buffer is a `List Word` of length 1024; the
  Rust in-place writes `data[size] = w` become `List.set`, and reads
  `data[i]` become `List.getD` (every read performed by the code is within
  bounds whenever `size ≤ 1024` and the buffer has its full length).
* `push` and `pop` return `Option`, exactly as in the source; `execute`
  threads the machine state explicitly and returns the `Trap` together
  with the updated state.
-/

namespace Recur

/-- `const STACK_CAPACITY: usize = 1024;` -/
def STACK_CAPACITY : Nat := 1024

/-- `struct Word { value: i32 }` — the i32 payload is modelled as `Int`. -/
structure Word where
  value : Int
deriving Repr, DecidableEq

/-- Two's-complement wrap-around into the i32 range `[-2^31, 2^31)`. -/
def wrap32 (n : Int) : Int :=
  (n + 2 ^ 31) % 2 ^ 32 - 2 ^ 31

/-- The Rust cast `v as usize` for an `i32` value `v` on a 64-bit target:
reduce modulo `2 ^ 64` and read off the non-negative representative. -/
def usizeOfI32 (v : Int) : Nat :=
  (v % (2 : Int) ^ 64).toNat

/-- `enum InstructionType` from the source. -/
inductive InstructionType where
  | Push
  | Pop
  | Dup
  | Plus
  | Minus
  | Mult
  | Div
  | JMP
  | JMP_IF
  | JMP_EQ
  | Halt
deriving Repr, DecidableEq

/-- `struct Instruction { inst_type: InstructionType, operand: Word }` -/
structure Instruction where
  inst_type : InstructionType
  operand : Word
deriving Repr, DecidableEq

instance : Inhabited Instruction := ⟨⟨InstructionType.Halt, ⟨0⟩⟩⟩

/-- `enum Trap` from the source. -/
inductive Trap where
  | TrapStackOverflow
  | TrapStackUnderflow
  | NoTrap
  | TrapDivisionByZero
  | TrapIllegalAccess
deriving Repr, DecidableEq

/-- `struct VM` from the source. `data` always has length `STACK_CAPACITY`. -/
structure VM where
  data : List Word
  size : Nat
  program : List Instruction
  instruction_pointer : Word
  is_halted : Bool
deriving Repr, DecidableEq

/-- `VM::new()` -/
def VM.new : VM :=
  { data := List.replicate STACK_CAPACITY ⟨0⟩
    instruction_pointer := ⟨0⟩
    program := []
    size := 0
    is_halted := false }

/-- `VM::push`: `None` on overflow, otherwise the updated machine. -/
def VM.push (vm : VM) (word : Word) : Option VM :=
  if vm.size = STACK_CAPACITY then
    none
  else
    some { vm with data := vm.data.set vm.size word, size := vm.size + 1 }

/-- `VM::pop`: `None` on underflow, otherwise the popped word and the
updated machine.  The slot is not cleared, exactly as in the source. -/
def VM.pop (vm : VM) : Option (Word × VM) :=
  if vm.size = 0 then
    none
  else
    some (vm.data.getD (vm.size - 1) ⟨0⟩, { vm with size := vm.size - 1 })

/-- `self.instruction_pointer.value += 1` (wrapping i32 increment). -/
def VM.incIp (vm : VM) : VM :=
  { vm with instruction_pointer := ⟨wrap32 (vm.instruction_pointer.value + 1)⟩ }

/-- Outcome of one `execute` call: a returned `Trap` with the updated
machine, or a Rust panic (reachable only through `i32::MIN / -1`). -/
inductive ExecResult where
  | ok (trap : Trap) (vm : VM)
  | panic
deriving Repr, DecidableEq

/-- `self.instruction_pointer.value as usize` — the fetch index. -/
def VM.fetchIndex (vm : VM) : Nat :=
  usizeOfI32 vm.instruction_pointer.value

/-- `self.program[ip]` — the instruction at the fetch index (only read by
`execute` after the bounds check, so the default is never exposed). -/
def VM.curInst (vm : VM) : Instruction :=
  vm.program.getD vm.fetchIndex default

/-- `VM::execute` — one instruction step, translated arm by arm. -/
def VM.execute (vm : VM) : ExecResult :=
  if vm.fetchIndex ≥ vm.program.length then
    .ok .TrapIllegalAccess vm
  else
    let inst := vm.curInst
    match inst.inst_type with
    | .Push =>
      let vm := vm.incIp
      match vm.push inst.operand with
      | none => .ok .TrapStackOverflow vm
      | some vm => .ok .NoTrap vm
    | .Plus =>
      let vm := vm.incIp
      match vm.pop with
      | none => .ok .TrapStackUnderflow vm
      | some (a, vm) =>
        match vm.pop with
        | none => .ok .TrapStackUnderflow vm
        | some (b, vm) =>
          match vm.push ⟨wrap32 (a.value + b.value)⟩ with
          | none => .ok .TrapStackOverflow vm
          | some vm => .ok .NoTrap vm
    | .Pop =>
      let vm := vm.incIp
      match vm.pop with
      | none => .ok .TrapStackUnderflow vm
      | some (_, vm) => .ok .NoTrap vm
    | .Dup =>
      let vm := vm.incIp
      let value := inst.operand
      if usizeOfI32 value.value ≥ vm.size then
        .ok .TrapIllegalAccess vm
      else
        match vm.push (vm.data.getD (vm.size - 1 - usizeOfI32 value.value) ⟨0⟩) with
        | none => .ok .TrapStackOverflow vm
        | some vm => .ok .NoTrap vm
    | .Minus =>
      let vm := vm.incIp
      match vm.pop with
      | none => .ok .TrapStackUnderflow vm
      | some (a, vm) =>
        match vm.pop with
        | none => .ok .TrapStackUnderflow vm
        | some (b, vm) =>
          match vm.push ⟨wrap32 (a.value - b.value)⟩ with
          | none => .ok .TrapStackOverflow vm
          | some vm => .ok .NoTrap vm
    | .Mult =>
      let vm := vm.incIp
      match vm.pop with
      | none => .ok .TrapStackUnderflow vm
      | some (a, vm) =>
        match vm.pop with
        | none => .ok .TrapStackUnderflow vm
        | some (b, vm) =>
          match vm.push ⟨wrap32 (a.value * b.value)⟩ with
          | none => .ok .TrapStackOverflow vm
          | some vm => .ok .NoTrap vm
    | .Div =>
      let vm := vm.incIp
      match vm.pop with
      | none => .ok .TrapStackUnderflow vm
      | some (a, vm) =>
        match vm.pop with
        | none => .ok .TrapStackUnderflow vm
        | some (b, vm) =>
          if b.value = 0 then
            .ok .TrapDivisionByZero vm
          else if a.value = -(2 ^ 31) ∧ b.value = -1 then
            .panic
          else
            match vm.push ⟨Int.tdiv a.value b.value⟩ with
            | none => .ok .TrapStackOverflow vm
            | some vm => .ok .NoTrap vm
    | .JMP =>
      .ok .NoTrap { vm with instruction_pointer := inst.operand }
    | .JMP_IF =>
      match vm.pop with
      | none => .ok .TrapStackUnderflow vm
      | some (condition, vm) =>
        if condition.value ≠ 0 then
          .ok .NoTrap { vm with instruction_pointer := inst.operand }
        else
          .ok .NoTrap vm.incIp
    | .JMP_EQ =>
      if vm.size < 2 then
        .ok .TrapStackUnderflow vm
      else
        let a := vm.data.getD (vm.size - 1) ⟨0⟩
        let b := vm.data.getD (vm.size - 2) ⟨0⟩
        let vm :=
          if a.value = b.value then
            { vm with instruction_pointer := inst.operand }
          else
            vm.incIp
        -- `self.pop();` — the result is discarded, NoTrap is returned either way
        let vm :=
          match vm.pop with
          | none => vm
          | some (_, vm) => vm
        .ok .NoTrap vm
    | .Halt =>
      .ok .NoTrap { vm with is_halted := true }

/-- Attaching a program to a fresh machine (`vm.program = insts;` in `main`). -/
def loadProgram (p : List Instruction) : VM :=
  { VM.new with program := p }

/-- The traps returned by `n` consecutive `execute` calls, together with
the machine after them (the iteration performed by the driver loop in
`main`; it stops early only on a Rust panic, which never occurs in the
runs below). -/
def VM.steps : Nat → VM → List Trap × VM
  | 0, vm => ([], vm)
  | n + 1, vm =>
    match vm.execute with
    | .ok t vm' =>
      let r := VM.steps n vm'
      (t :: r.1, r.2)
    | .panic => ([], vm)

/-- Push a whole list of words, left to right, failing if any push fails. -/
def VM.pushAll (vm : VM) : List Word → Option VM
  | [] => some vm
  | w :: ws =>
    match vm.push w with
    | none => none
    | some vm' => vm'.pushAll ws

/-- Pop repeatedly (with fuel), collecting the returned words and stopping
on the first underflow. -/
def VM.popAllAux : Nat → VM → List Word
  | 0, _ => []
  | n + 1, vm =>
    match vm.pop with
    | none => []
    | some (w, vm') => w :: VM.popAllAux n vm'

/-- Pop every live element of the stack, top first. -/
def VM.popAll (vm : VM) : List Word :=
  VM.popAllAux vm.size vm

/-- Machine states reachable from a freshly loaded machine by a sequence
of (non-panicking) `execute` calls. -/
inductive Reachable : VM → Prop where
  | load (p : List Instruction) : Reachable (loadProgram p)
  | step (vm vm' : VM) (t : Trap) :
      Reachable vm → vm.execute = .ok t vm' → Reachable vm'

/-! ### Concrete machines and programs used in the verification scenarios -/

/-- The program of spec scenario C. -/
def popProgram : List Instruction := [⟨.Pop, ⟨0⟩⟩]

/-- The program of spec scenario B, exactly as the spec writes it. -/
def scenarioBProgram : List Instruction :=
  [⟨.Push, ⟨5⟩⟩, ⟨.Push, ⟨0⟩⟩, ⟨.Div, ⟨0⟩⟩]

/-- Scenario B with the two pushes swapped, so that the divisor (the
second-from-top element, per the Div operand order) is really 0. -/
def scenarioBSwapped : List Instruction :=
  [⟨.Push, ⟨0⟩⟩, ⟨.Push, ⟨5⟩⟩, ⟨.Div, ⟨0⟩⟩]

/-- A jump to an in-range instruction that itself traps with
IllegalAccess (a `Dup` whose depth exceeds the stack size). -/
def jumpThenDupProgram : List Instruction := [⟨.JMP, ⟨1⟩⟩, ⟨.Dup, ⟨0⟩⟩]

/-- A machine about to divide `i32::MIN` (top) by `-1` (second-from-top). -/
def divMinOverflowVM : VM :=
  { VM.new with
      data := ⟨-1⟩ :: ⟨-(2 ^ 31)⟩ :: List.replicate 1022 ⟨0⟩
      size := 2
      program := [⟨.Div, ⟨0⟩⟩] }

/-- A machine about to divide `7` (top) by `2` (second-from-top). -/
def divOkVM : VM :=
  { VM.new with
      data := ⟨2⟩ :: ⟨7⟩ :: List.replicate 1022 ⟨0⟩
      size := 2
      program := [⟨.Div, ⟨0⟩⟩] }

/-- A machine about to run `JumpIfEqual 5` on the stack `[7, 7]`. -/
def jmpEqVM : VM :=
  { VM.new with
      data := ⟨7⟩ :: ⟨7⟩ :: List.replicate 1022 ⟨0⟩
      size := 2
      program := [⟨.JMP_EQ, ⟨5⟩⟩] }

/-- The machine reached by executing `[Halt]` for one step. -/
def haltedVM : VM := { loadProgram [⟨.Halt, ⟨0⟩⟩] with is_halted := true }

/-- A machine whose instruction pointer holds the negative word `-1`. -/
def negIpVM : VM :=
  { loadProgram [⟨.Halt, ⟨0⟩⟩] with instruction_pointer := ⟨-1⟩ }

/-! ### Helper lemmas about the stack primitives -/

lemma VM.push_eq_none_iff (vm : VM) (w : Word) :
    vm.push w = none ↔ vm.size = STACK_CAPACITY := by
  unfold VM.push
  split <;> simp_all

lemma VM.push_eq_some (vm : VM) (w : Word) (h : vm.size ≠ STACK_CAPACITY) :
    vm.push w =
      some { vm with data := vm.data.set vm.size w, size := vm.size + 1 } := by
  unfold VM.push
  simp [h]

lemma VM.pop_eq_none_iff (vm : VM) : vm.pop = none ↔ vm.size = 0 := by
  unfold VM.pop
  split <;> simp_all

lemma VM.pop_eq_some (vm : VM) (h : vm.size ≠ 0) :
    vm.pop =
      some (vm.data.getD (vm.size - 1) ⟨0⟩, { vm with size := vm.size - 1 }) := by
  unfold VM.pop
  simp [h]

/-! ### Field preservation across one `execute` step -/

lemma VM.execute_ok_program (vm : VM) (t : Trap) (vm' : VM)
    (h : vm.execute = .ok t vm') : vm'.program = vm.program := by
  simp only [VM.execute] at h
  split at h
  · cases h; rfl
  · split at h <;>
      (try simp only [VM.push, VM.pop, VM.incIp] at h) <;>
      (repeat' split at h) <;>
      cases h <;>
      (try rfl) <;>
      split_ifs at * <;>
      (try simp_all) <;>
      (try casesm* _ ∧ _) <;>
      subst_vars <;>
      (try simp_all)

lemma VM.execute_ok_data_length (vm : VM) (t : Trap) (vm' : VM)
    (h : vm.execute = .ok t vm') : vm'.data.length = vm.data.length := by
  simp only [VM.execute] at h
  split at h
  · cases h; rfl
  · split at h <;>
      (try simp only [VM.push, VM.pop, VM.incIp] at h) <;>
      (repeat' split at h) <;>
      cases h <;>
      (try rfl) <;>
      split_ifs at * <;>
      (try simp_all [List.length_set]) <;>
      (try casesm* _ ∧ _) <;>
      subst_vars <;>
      (try simp_all [List.length_set])

lemma VM.execute_ok_size (vm : VM) (t : Trap) (vm' : VM)
    (h : vm.execute = .ok t vm') (hcap : vm.size ≤ STACK_CAPACITY) :
    vm'.size ≤ STACK_CAPACITY := by
  simp only [VM.execute] at h
  split at h
  · cases h; exact hcap
  · split at h <;>
      (try simp only [VM.push, VM.pop, VM.incIp] at h) <;>
      (repeat' split at h) <;>
      cases h <;>
      (try exact hcap) <;>
      split_ifs at * <;>
      (try simp_all [STACK_CAPACITY]) <;>
      (try casesm* _ ∧ _) <;>
      subst_vars <;>
      (try simp_all [STACK_CAPACITY]) <;>
      omega

lemma VM.execute_ok_is_halted (vm : VM) (t : Trap) (vm' : VM)
    (h : vm.execute = .ok t vm') :
    vm'.is_halted = vm.is_halted ∨
      (vm.fetchIndex < vm.program.length ∧ vm.curInst.inst_type = .Halt ∧
        vm' = { vm with is_halted := true }) := by
  simp only [VM.execute] at h
  split at h
  · cases h; exact Or.inl rfl
  · split at h <;>
      (try simp only [VM.push, VM.pop, VM.incIp] at h) <;>
      (repeat' split at h) <;>
      cases h <;>
      (try exact Or.inl rfl) <;>
      (try exact Or.inr ⟨by omega, by assumption, rfl⟩) <;>
      split_ifs at * <;>
      (try simp_all) <;>
      (try casesm* _ ∧ _) <;>
      subst_vars <;>
      (try simp_all)

/-! ### Evaluation lemmas for single `execute` arms -/

lemma VM.execute_fetch_fail (vm : VM)
    (h : vm.fetchIndex ≥ vm.program.length) :
    vm.execute = .ok .TrapIllegalAccess vm := by
  simp only [VM.execute]
  rw [if_pos h]

lemma VM.execute_pop_underflow (vm : VM)
    (hF : vm.fetchIndex < vm.program.length)
    (hI : vm.curInst.inst_type = .Pop) (hsz : vm.size = 0) :
    vm.execute = .ok .TrapStackUnderflow vm.incIp := by
  simp only [VM.execute]
  rw [if_neg (by omega)]
  simp [hI, VM.pop, VM.incIp, hsz]

lemma VM.execute_halt (vm : VM)
    (hF : vm.fetchIndex < vm.program.length)
    (hI : vm.curInst.inst_type = .Halt) :
    vm.execute = .ok .NoTrap { vm with is_halted := true } := by
  simp only [VM.execute]
  rw [if_neg (by omega)]
  simp [hI]

lemma VM.execute_jmp (vm : VM) (target : Word)
    (hF : vm.fetchIndex < vm.program.length)
    (hI : vm.curInst = ⟨.JMP, target⟩) :
    vm.execute = .ok .NoTrap { vm with instruction_pointer := target } := by
  simp only [VM.execute]
  rw [if_neg (by omega)]
  simp [hI]

lemma VM.execute_div (vm : VM)
    (hF : vm.fetchIndex < vm.program.length)
    (hI : vm.curInst.inst_type = .Div)
    (hsz : 2 ≤ vm.size) (hcap : vm.size ≤ STACK_CAPACITY) :
    vm.execute =
      (if (vm.data.getD (vm.size - 2) ⟨0⟩).value = 0 then
        .ok .TrapDivisionByZero { vm.incIp with size := vm.size - 2 }
      else if (vm.data.getD (vm.size - 1) ⟨0⟩).value = -(2 ^ 31) ∧
              (vm.data.getD (vm.size - 2) ⟨0⟩).value = -1 then
        .panic
      else
        .ok .NoTrap
          { vm.incIp with
              data := vm.data.set (vm.size - 2)
                ⟨Int.tdiv (vm.data.getD (vm.size - 1) ⟨0⟩).value
                  (vm.data.getD (vm.size - 2) ⟨0⟩).value⟩,
              size := vm.size - 1 }) := by
  have h3' : ¬ vm.size = 0 := by omega
  have h2' : ¬ vm.size - 1 = 0 := by omega
  have h4' : vm.size - 1 - 1 = vm.size - 2 := by omega
  have h5' : ¬ vm.size - 2 = STACK_CAPACITY := by
    simp only [STACK_CAPACITY] at hcap ⊢
    omega
  simp only [VM.execute]
  rw [if_neg (by omega)]
  simp only [hI, VM.pop, VM.push, VM.incIp]
  rw [if_neg h3']
  simp only []
  rw [if_neg h2']
  simp only [h4']
  rw [if_neg h5']
  have h6' : vm.size - 2 + 1 = vm.size - 1 := by omega
  simp only [h6']

lemma VM.execute_jmp_eq (vm : VM) (target : Word)
    (hF : vm.fetchIndex < vm.program.length)
    (hI : vm.curInst = ⟨.JMP_EQ, target⟩) :
    vm.execute =
      (if vm.size < 2 then
        .ok .TrapStackUnderflow vm
      else if (vm.data.getD (vm.size - 1) ⟨0⟩).value
              = (vm.data.getD (vm.size - 2) ⟨0⟩).value then
        .ok .NoTrap { vm with instruction_pointer := target, size := vm.size - 1 }
      else
        .ok .NoTrap { vm.incIp with size := vm.size - 1 }) := by
  simp only [VM.execute]
  rw [if_neg (by omega)]
  simp only [hI]
  by_cases hlt : vm.size < 2
  · simp [hlt]
  · rw [if_neg hlt, if_neg hlt]
    have h0 : ¬ vm.size = 0 := by omega
    by_cases heq : (vm.data.getD (vm.size - 1) ⟨0⟩).value
        = (vm.data.getD (vm.size - 2) ⟨0⟩).value
    · rw [if_pos heq, if_pos heq]
      simp only [VM.pop]
      rw [if_neg h0]
    · rw [if_neg heq, if_neg heq]
      simp only [VM.pop, VM.incIp]
      rw [if_neg h0]

lemma VM.execute_halted_fixed (vm : VM)
    (hF : vm.fetchIndex < vm.program.length)
    (hI : vm.curInst.inst_type = .Halt) (hh : vm.is_halted = true) :
    vm.execute = .ok .NoTrap vm := by
  have hfix : { vm with is_halted := true } = vm := by
    cases vm
    simp_all
  rw [VM.execute_halt vm hF hI, hfix]

/-- The key invariant behind the `halted` claim: in every reachable halted
state the instruction pointer still points at the `Halt` instruction that
stopped the machine. -/
def HaltInv (vm : VM) : Prop :=
  vm.is_halted = true →
    vm.fetchIndex < vm.program.length ∧ vm.curInst.inst_type = .Halt

lemma reachable_haltInv (vm : VM) (h : Reachable vm) : HaltInv vm := by
  induction h with
  | load p =>
    intro hh
    simp [loadProgram, VM.new] at hh
  | step vm₁ vm₂ t hr he ih =>
    intro hh
    rcases VM.execute_ok_is_halted vm₁ t vm₂ he with hsame | ⟨hf, hi, hheq⟩
    · have hh1 : vm₁.is_halted = true := by rw [← hsame]; exact hh
      obtain ⟨hf1, hi1⟩ := ih hh1
      have hfix := VM.execute_halted_fixed vm₁ hf1 hi1 hh1
      have he' : vm₁.execute = .ok t vm₂ := he
      rw [hfix] at he'
      cases he'
      exact ⟨hf1, hi1⟩
    · subst hheq
      exact ⟨hf, hi⟩

/-! ### LIFO discipline: the live stack as a list -/

lemma take_set_succ {α : Type} (l : List α) (i : Nat) (a : α) (h : i < l.length) :
    (l.set i a).take (i + 1) = l.take i ++ [a] := by
  induction l generalizing i with
  | nil => simp at h
  | cons x xs ih =>
    cases i with
    | zero => simp
    | succ n =>
      simp only [List.set, List.take, List.cons_append]
      rw [ih n (by simpa using h)]

lemma take_succ_getD {α : Type} (l : List α) (i : Nat) (d : α) (h : i < l.length) :
    l.take (i + 1) = l.take i ++ [l.getD i d] := by
  induction l generalizing i with
  | nil => simp at h
  | cons x xs ih =>
    cases i with
    | zero => simp
    | succ n =>
      simp only [List.take, List.getD_cons_succ, List.cons_append]
      rw [ih n (by simpa using h)]

lemma VM.pushAll_spec (ws : List Word) (vm : VM)
    (hcap : vm.size + ws.length ≤ STACK_CAPACITY)
    (hlen : vm.data.length = STACK_CAPACITY) :
    ∃ vm', vm.pushAll ws = some vm' ∧
      vm'.data.length = STACK_CAPACITY ∧
      vm'.size = vm.size + ws.length ∧
      vm'.data.take vm'.size = vm.data.take vm.size ++ ws := by
  induction ws generalizing vm with
  | nil => exact ⟨vm, rfl, hlen, by simp, by simp⟩
  | cons w ws ih =>
    have hne : vm.size ≠ STACK_CAPACITY := by
      simp only [List.length_cons] at hcap
      omega
    rw [VM.pushAll, VM.push_eq_some vm w hne]
    obtain ⟨vm', h1, h2, h3, h4⟩ :=
      ih { vm with data := vm.data.set vm.size w, size := vm.size + 1 }
        (by simp only [List.length_cons] at hcap ⊢; omega)
        (by simpa using hlen)
    have h3' : vm'.size = vm.size + 1 + ws.length := by simpa using h3
    refine ⟨vm', h1, h2, by simp only [List.length_cons]; omega, ?_⟩
    rw [h4]
    have hlt : vm.size < vm.data.length := by omega
    have hstep :
        ({ vm with data := vm.data.set vm.size w, size := vm.size + 1 } : VM).data.take
          ({ vm with data := vm.data.set vm.size w, size := vm.size + 1 } : VM).size
        = vm.data.take vm.size ++ [w] := take_set_succ vm.data vm.size w hlt
    rw [hstep, List.append_assoc, List.singleton_append]

lemma VM.popAllAux_spec (n : Nat) (vm : VM) (hsz : vm.size = n)
    (hle : n ≤ vm.data.length) :
    VM.popAllAux n vm = (vm.data.take n).reverse := by
  induction n generalizing vm with
  | zero => simp [VM.popAllAux]
  | succ m ih =>
    rw [VM.popAllAux, VM.pop_eq_some vm (by omega)]
    simp only []
    rw [ih { vm with size := vm.size - 1 } (by simp [hsz]) (by simp; omega)]
    rw [take_succ_getD vm.data m ⟨0⟩ (by omega)]
    simp [hsz]

/-! ### The claims -/

/-- C1 (amended): with the `Pop` instruction current and `size == 0`,
`execute` returns StackUnderflow and leaves the stack contents, the size
and the halted flag unchanged — but the instruction pointer is NOT
unchanged: the `Pop` arm increments it before attempting the pop, so for
the program `[Pop]` on a fresh machine it ends up at 1, not 0. -/
theorem C1_pop_empty_underflow (vm : VM)
    (hF : vm.fetchIndex < vm.program.length)
    (hI : vm.curInst.inst_type = .Pop)
    (hsz : vm.size = 0) :
    vm.execute = .ok .TrapStackUnderflow vm.incIp ∧
    vm.incIp.data = vm.data ∧ vm.incIp.size = vm.size ∧
    vm.incIp.is_halted = vm.is_halted ∧
    vm.incIp.instruction_pointer.value = wrap32 (vm.instruction_pointer.value + 1) :=
  ⟨VM.execute_pop_underflow vm hF hI hsz, rfl, rfl, rfl, rfl⟩

/-- C1 counterexample: on the program `[Pop]` with an empty stack the
first `execute` call does return StackUnderflow, but the instruction
pointer afterwards is 1, not the claimed 0. -/
theorem C1_counterexample :
    (VM.steps 1 (loadProgram popProgram)).1 = [.TrapStackUnderflow] ∧
    (VM.steps 1 (loadProgram popProgram)).2.instruction_pointer = ⟨1⟩ ∧
    (⟨1⟩ : Word) ≠ (⟨0⟩ : Word) :=
  ⟨by decide, by decide, by decide⟩

/-- C1 witness: the amended claim evaluated on the program `[Pop]`. -/
theorem C1_witness :
    (loadProgram popProgram).execute
      = .ok .TrapStackUnderflow (loadProgram popProgram).incIp :=
  (C1_pop_empty_underflow (loadProgram popProgram) (by decide) (by decide)
    (by decide)).1

/-- C2 (amended): with the `Div` instruction current and `size >= 2`
(within capacity), `execute` pops `a` (top) then `b` (second-from-top);
it returns DivisionByZero iff `b == 0`, and in that case both operands
are consumed (`size` drops by exactly 2); otherwise it pushes the
truncated quotient `a / b` — except at `a = i32::MIN, b = -1`, where the
quotient overflows `i32` and the Rust program panics instead of pushing. -/
theorem C2_div_consumes_and_checks (vm : VM)
    (hF : vm.fetchIndex < vm.program.length)
    (hI : vm.curInst.inst_type = .Div)
    (hsz : 2 ≤ vm.size) (hcap : vm.size ≤ STACK_CAPACITY) :
    ((vm.data.getD (vm.size - 2) ⟨0⟩).value = 0 →
      vm.execute = .ok .TrapDivisionByZero { vm.incIp with size := vm.size - 2 }) ∧
    ((vm.data.getD (vm.size - 2) ⟨0⟩).value ≠ 0 →
      ¬((vm.data.getD (vm.size - 1) ⟨0⟩).value = -(2 ^ 31) ∧
          (vm.data.getD (vm.size - 2) ⟨0⟩).value = -1) →
      vm.execute = .ok .NoTrap
        { vm.incIp with
            data := vm.data.set (vm.size - 2)
              ⟨Int.tdiv (vm.data.getD (vm.size - 1) ⟨0⟩).value
                (vm.data.getD (vm.size - 2) ⟨0⟩).value⟩,
            size := vm.size - 1 }) ∧
    ((vm.data.getD (vm.size - 2) ⟨0⟩).value ≠ 0 →
      (vm.data.getD (vm.size - 1) ⟨0⟩).value = -(2 ^ 31) ∧
        (vm.data.getD (vm.size - 2) ⟨0⟩).value = -1 →
      vm.execute = .panic) := by
  have h := VM.execute_div vm hF hI hsz hcap
  refine ⟨fun hb => ?_, fun hb hmin => ?_, fun hb hmin => ?_⟩ <;> rw [h]
  · rw [if_pos hb]
  · rw [if_neg hb, if_neg hmin]
  · rw [if_neg hb, if_pos hmin]

/-- C2 counterexample: dividing `i32::MIN` (top) by `-1` (second) has a
non-zero divisor, so the claim demands a pushed quotient, but the code
panics (signed division overflow) and pushes nothing. -/
theorem C2_counterexample :
    divMinOverflowVM.execute = .panic ∧
    (divMinOverflowVM.data.getD (divMinOverflowVM.size - 2) ⟨0⟩).value ≠ 0 :=
  ⟨by decide, by decide⟩

/-- C2 witness: dividing `7` (top) by `2` (second) pushes `tdiv 7 2 = 3`. -/
theorem C2_witness :
    divOkVM.execute = .ok .NoTrap
      { divOkVM.incIp with
          data := divOkVM.data.set (divOkVM.size - 2)
            ⟨Int.tdiv (divOkVM.data.getD (divOkVM.size - 1) ⟨0⟩).value
              (divOkVM.data.getD (divOkVM.size - 2) ⟨0⟩).value⟩,
          size := divOkVM.size - 1 } :=
  (C2_div_consumes_and_checks divOkVM (by decide) (by decide) (by decide)
    (by decide)).2.1 (by decide) (by decide)

/-- C3 (amended): because `Div` divides the top by the second-from-top,
the program that actually divides by zero is `[Push(0), Push(5), Div]`:
it yields exactly one `execute` call returning DivisionByZero (the
third), with `size == 0` afterwards. -/
theorem C3_swapped_program_divides_by_zero :
    (VM.steps 3 (loadProgram scenarioBSwapped)).1
      = [.NoTrap, .NoTrap, .TrapDivisionByZero] ∧
    (VM.steps 3 (loadProgram scenarioBSwapped)).2.size = 0 :=
  ⟨by decide, by decide⟩

/-- C3 counterexample: the spec's program `[Push(5), Push(0), Div]`
computes `0 / 5`: the third `execute` call returns NoTrap (no call in
the whole run returns DivisionByZero) and `size` is 1 afterwards, not 0. -/
theorem C3_counterexample :
    (VM.steps 3 (loadProgram scenarioBProgram)).1
      = [.NoTrap, .NoTrap, .NoTrap] ∧
    Trap.TrapDivisionByZero ∉ (VM.steps 4 (loadProgram scenarioBProgram)).1 ∧
    (VM.steps 3 (loadProgram scenarioBProgram)).2.size = 1 :=
  ⟨by decide, by decide, by decide⟩

/-- C4 (amended): with a `Jump(target)` instruction current, `execute`
sets the instruction pointer to `target` (absolute), does not also
increment it, performs no bounds check on `target`, and returns NoTrap;
if `target`, converted to an unsigned index, is out of range, the NEXT
`execute` call returns IllegalAccess with the machine unchanged.  The
unrestricted claim "execute returns IllegalAccess iff the entry ip is >=
program.length" is false: `Dup` also returns IllegalAccess at an
in-range ip (see the counterexample). -/
theorem C4_jump_lazy_validation (vm : VM) (target : Word)
    (hF : vm.fetchIndex < vm.program.length)
    (hI : vm.curInst = ⟨.JMP, target⟩) :
    vm.execute = .ok .NoTrap { vm with instruction_pointer := target } ∧
    (usizeOfI32 target.value ≥ vm.program.length →
      ({ vm with instruction_pointer := target } : VM).execute
        = .ok .TrapIllegalAccess { vm with instruction_pointer := target }) := by
  refine ⟨VM.execute_jmp vm target hF hI, fun hout => ?_⟩
  exact VM.execute_fetch_fail _ hout

/-- C4 counterexample: `[Jump(1), Dup(0)]` — the second `execute` call
returns IllegalAccess although its entry instruction pointer (1) is in
range, refuting "IllegalAccess iff entry ip >= program.length". -/
theorem C4_counterexample :
    (VM.steps 2 (loadProgram jumpThenDupProgram)).1
      = [.NoTrap, .TrapIllegalAccess] ∧
    (VM.steps 1 (loadProgram jumpThenDupProgram)).2.fetchIndex
      < (VM.steps 1 (loadProgram jumpThenDupProgram)).2.program.length :=
  ⟨by decide, by decide⟩

/-- C4 witness: `[Jump(5)]` jumps to the out-of-range target 5 with
NoTrap, and the next fetch traps with IllegalAccess. -/
theorem C4_witness :
    (loadProgram [⟨.JMP, ⟨5⟩⟩]).execute
      = .ok .NoTrap { loadProgram [⟨.JMP, ⟨5⟩⟩] with instruction_pointer := ⟨5⟩ } ∧
    ({ loadProgram [⟨.JMP, ⟨5⟩⟩] with instruction_pointer := ⟨5⟩ } : VM).execute
      = .ok .TrapIllegalAccess
          { loadProgram [⟨.JMP, ⟨5⟩⟩] with instruction_pointer := ⟨5⟩ } := by
  have h := C4_jump_lazy_validation (loadProgram [⟨.JMP, ⟨5⟩⟩]) ⟨5⟩
    (by decide) (by decide)
  exact ⟨h.1, h.2 (by decide)⟩

/-- C5: `push(word)` fails (returns `none`) iff `size == capacity`
(1024); on failure nothing is returned so the machine is unchanged;
otherwise it writes `word` at index `size`, increments `size` by 1, and
changes no other slot. -/
theorem C5_push_contract (vm : VM) (w : Word)
    (hcap : vm.size ≤ STACK_CAPACITY) :
    (vm.push w = none ↔ vm.size = STACK_CAPACITY) ∧
    (vm.size ≠ STACK_CAPACITY →
      vm.push w = some { vm with data := vm.data.set vm.size w, size := vm.size + 1 }) ∧
    (∀ i, i ≠ vm.size →
      (vm.data.set vm.size w).getD i ⟨0⟩ = vm.data.getD i ⟨0⟩) := by
  refine ⟨VM.push_eq_none_iff vm w, VM.push_eq_some vm w, fun i hi => ?_⟩
  simp [List.getD, List.getElem?_set_ne (Ne.symm hi)]

/-- C5 witness: the push contract evaluated on a fresh machine. -/
theorem C5_witness :
    (VM.new.push ⟨9⟩ = none ↔ VM.new.size = STACK_CAPACITY) ∧
    (VM.new.size ≠ STACK_CAPACITY →
      VM.new.push ⟨9⟩
        = some { VM.new with data := VM.new.data.set VM.new.size ⟨9⟩,
                             size := VM.new.size + 1 }) ∧
    (∀ i, i ≠ VM.new.size →
      (VM.new.data.set VM.new.size ⟨9⟩).getD i ⟨0⟩ = VM.new.data.getD i ⟨0⟩) :=
  C5_push_contract VM.new ⟨9⟩ (by decide)

/-- C6: with a `JumpIfEqual(target)` instruction current: if `size >= 2`,
`execute` compares the top two elements without popping, jumps to
`target` on equality or advances the ip by 1 otherwise, then pops exactly
one element — so `size` drops by exactly 1 on both branches; if
`size < 2` it returns StackUnderflow (machine unchanged). -/
theorem C6_jmp_eq_pops_exactly_one (vm : VM) (target : Word)
    (hF : vm.fetchIndex < vm.program.length)
    (hI : vm.curInst = ⟨.JMP_EQ, target⟩) :
    (2 ≤ vm.size →
      vm.execute = .ok .NoTrap
        (if (vm.data.getD (vm.size - 1) ⟨0⟩).value
            = (vm.data.getD (vm.size - 2) ⟨0⟩).value then
          { vm with instruction_pointer := target, size := vm.size - 1 }
        else
          { vm.incIp with size := vm.size - 1 })) ∧
    (vm.size < 2 → vm.execute = .ok .TrapStackUnderflow vm) := by
  have h := VM.execute_jmp_eq vm target hF hI
  constructor
  · intro h2
    rw [h, if_neg (by omega)]
    split_ifs <;> rfl
  · intro h2
    rw [h, if_pos h2]

/-- C6 witness: `JumpIfEqual 5` on the stack `[7, 7]` jumps and leaves
one element. -/
theorem C6_witness :
    jmpEqVM.execute = .ok .NoTrap
      { jmpEqVM with instruction_pointer := ⟨5⟩, size := 1 } := by
  have h := (C6_jmp_eq_pops_exactly_one jmpEqVM ⟨5⟩ (by decide) (by decide)).1
    (by decide)
  exact h

/-- C7: pushing any sequence of at most 1024 words onto a fresh machine
succeeds, and repeatedly popping returns exactly those words in reverse
push order, every pop succeeding until the stack is empty. -/
theorem C7_lifo_order (ws : List Word) (h : ws.length ≤ STACK_CAPACITY) :
    ∃ vm', VM.new.pushAll ws = some vm' ∧ vm'.size = ws.length ∧
      vm'.popAll = ws.reverse := by
  obtain ⟨vm', h1, h2, h3, h4⟩ :=
    VM.pushAll_spec ws VM.new (by simpa [VM.new] using h) (by simp [VM.new])
  have hsz : vm'.size = ws.length := by simpa [VM.new] using h3
  have h4' : vm'.data.take vm'.size = ws := by simpa [VM.new] using h4
  refine ⟨vm', h1, hsz, ?_⟩
  rw [VM.popAll, VM.popAllAux_spec vm'.size vm' rfl
    (by simp only [STACK_CAPACITY] at h2 h ⊢; omega), h4']

/-- C7 witness: the LIFO property evaluated on the list `[1, 2, 3]`. -/
theorem C7_witness :
    ∃ vm', VM.new.pushAll [⟨1⟩, ⟨2⟩, ⟨3⟩] = some vm' ∧ vm'.size = 3 ∧
      vm'.popAll = [⟨3⟩, ⟨2⟩, ⟨1⟩] :=
  C7_lifo_order [⟨1⟩, ⟨2⟩, ⟨3⟩] (by decide)

/-- C8: in every reachable machine state with the halted flag set, a
further `execute` call returns NoTrap and leaves the machine completely
unchanged — no instruction effect can occur after halting, because the
instruction pointer still rests on the `Halt` instruction. -/
theorem C8_no_effect_after_halt (vm : VM) (h1 : Reachable vm)
    (h2 : vm.is_halted = true) :
    vm.execute = .ok .NoTrap vm := by
  obtain ⟨hf, hi⟩ := reachable_haltInv vm h1 h2
  exact VM.execute_halted_fixed vm hf hi h2

set_option maxRecDepth 4096 in
/-- C8 witness: the machine obtained by running `[Halt]` for one step. -/
theorem C8_witness : haltedVM.execute = .ok .NoTrap haltedVM := by
  have hr : Reachable haltedVM :=
    Reachable.step (loadProgram [⟨.Halt, ⟨0⟩⟩]) haltedVM .NoTrap
      (Reachable.load _) (by decide)
  exact C8_no_effect_after_halt haltedVM hr rfl

/-- C9: the invariant `size <= capacity` (1024) — with `0 <= size` holding
by the `Nat` representation — holds in the initial machine and is
preserved by `push`, by `pop`, and by every branch of `execute`,
including all trap-returning branches. -/
theorem C9_size_invariant (vm : VM) (w : Word)
    (hcap : vm.size ≤ STACK_CAPACITY) :
    VM.new.size ≤ STACK_CAPACITY ∧
    (∀ vm', vm.push w = some vm' → vm'.size ≤ STACK_CAPACITY) ∧
    (∀ p vm', vm.pop = some (p, vm') → vm'.size ≤ STACK_CAPACITY) ∧
    (∀ t vm', vm.execute = .ok t vm' → vm'.size ≤ STACK_CAPACITY) := by
  refine ⟨by simp [VM.new], fun vm' h => ?_, fun p vm' h => ?_,
    fun t vm' h => VM.execute_ok_size vm t vm' h hcap⟩
  · unfold VM.push at h
    split at h
    · cases h
    · cases h
      simp_all only [STACK_CAPACITY]
      omega
  · unfold VM.pop at h
    split at h
    · cases h
    · cases h
      simp only []
      omega

/-- C9 witness: the invariant evaluated on a fresh machine. -/
theorem C9_witness :
    VM.new.size ≤ STACK_CAPACITY ∧
    (∀ vm', VM.new.push ⟨4⟩ = some vm' → vm'.size ≤ STACK_CAPACITY) ∧
    (∀ p vm', VM.new.pop = some (p, vm') → vm'.size ≤ STACK_CAPACITY) ∧
    (∀ t vm', VM.new.execute = .ok t vm' → vm'.size ≤ STACK_CAPACITY) :=
  C9_size_invariant VM.new ⟨4⟩ (by decide)

/-- C10: on a machine whose instruction pointer holds a negative i32
value, `execute` returns IllegalAccess and leaves the whole machine
unchanged: the `as usize` conversion turns the negative word into an
index of at least `2^64 - 2^31`, which exceeds any program length a Vec
can have (bounded here by `2^63`). -/
theorem C10_negative_ip_illegal_access (vm : VM)
    (h1 : vm.instruction_pointer.value < 0)
    (h2 : -(2 ^ 31) ≤ vm.instruction_pointer.value)
    (h3 : vm.program.length ≤ 2 ^ 63) :
    vm.execute = .ok .TrapIllegalAccess vm := by
  apply VM.execute_fetch_fail
  unfold VM.fetchIndex usizeOfI32
  omega

/-- C10 witness: a machine with instruction pointer `-1`. -/
theorem C10_witness : negIpVM.execute = .ok .TrapIllegalAccess negIpVM :=
  C10_negative_ip_illegal_access negIpVM (by decide) (by decide) (by decide)

end Recur
